import Mathlib

/-!
Verification development for the family-tree application's core:
the relationship reconciler (`src/lib/relationship-utils.ts` and the
`/api/relationships` route handlers found in the same source bundle),
the person-delete cascade (`src/app/api/persons/[id]/route.ts`),
the family set resolver (`FamilyFilter.tsx`), and the tree layout
engine (`FamilyTreeView.tsx`).

Each definition is a direct shallow embedding of the corresponding
TypeScript function; proofs establish the documented invariants of
those functions.
-/

/-! ## Data model: Person (prisma schema / src/types/index.ts) -/

/-- Person record as stored and as consumed by the resolver and the
layout engine.  `birthYear`/`deathYear` are optional integers,
`fatherId`/`motherId`/`spouseId` optional references by id. -/
structure Person where
  id : String
  firstName : String
  lastName : String
  gender : String
  birthYear : Option Int
  deathYear : Option Int
  dateOfBirth : Option String
  dateOfDeath : Option String
  location : Option String
  avatarColor : String
  profilePhoto : Option String
  fatherId : Option String
  motherId : Option String
  spouseId : Option String
  deriving Repr, DecidableEq, Inhabited

/-- JavaScript truthiness of the numeric `birthYear` field: `undefined`
and `0` are falsy, every other (validated, positive) year is truthy.
The API schema (`z.number().min(1)`) never stores `0`, but the embedding
keeps the exact JS semantics. -/
def yearVal (y : Option Int) : Option Int :=
  match y with
  | none => none
  | some b => if b = 0 then none else some b

/-! ## Relationship types and static metadata (relationship-utils.ts) -/

/-- The 22 relationship kinds of `RelationshipType`. -/
inductive RelationshipType where
  | SIBLING | HALF_SIBLING | STEP_SIBLING
  | GRANDPARENT | GRANDCHILD
  | AUNT_UNCLE | NIECE_NEPHEW
  | FIRST_COUSIN | SECOND_COUSIN
  | PARENT_IN_LAW | CHILD_IN_LAW | SIBLING_IN_LAW
  | STEP_PARENT | STEP_CHILD
  | GODPARENT | GODCHILD
  | ADOPTIVE_PARENT | ADOPTIVE_CHILD
  | GUARDIAN | WARD
  | CLOSE_FRIEND | FAMILY_FRIEND
  deriving Repr, DecidableEq, Fintype

open RelationshipType

/-- Category tags used by `RELATIONSHIP_DEFINITIONS`. -/
inductive RelCategory where
  | immediate | extended | step | adoptive | inLaw | friend
  deriving Repr, DecidableEq

/-- Static metadata for one relationship type (the `RelationshipInfo`
values of `RELATIONSHIP_DEFINITIONS`; display strings omitted — no
claim concerns them). -/
structure RelationshipInfo where
  type : RelationshipType
  category : RelCategory
  isMutual : Bool
  reverseType : Option RelationshipType
  deriving Repr, DecidableEq

/-- The `RELATIONSHIP_DEFINITIONS` table from relationship-utils.ts.
Types without an explicit `reverseType` entry carry `none` (JS
`undefined`). -/
def RELATIONSHIP_DEFINITIONS : RelationshipType → RelationshipInfo
  | SIBLING => ⟨SIBLING, .immediate, true, none⟩
  | HALF_SIBLING => ⟨HALF_SIBLING, .immediate, true, none⟩
  | STEP_SIBLING => ⟨STEP_SIBLING, .step, true, none⟩
  | GRANDPARENT => ⟨GRANDPARENT, .extended, false, some GRANDCHILD⟩
  | GRANDCHILD => ⟨GRANDCHILD, .extended, false, some GRANDPARENT⟩
  | AUNT_UNCLE => ⟨AUNT_UNCLE, .extended, false, some NIECE_NEPHEW⟩
  | NIECE_NEPHEW => ⟨NIECE_NEPHEW, .extended, false, some AUNT_UNCLE⟩
  | FIRST_COUSIN => ⟨FIRST_COUSIN, .extended, true, none⟩
  | SECOND_COUSIN => ⟨SECOND_COUSIN, .extended, true, none⟩
  | PARENT_IN_LAW => ⟨PARENT_IN_LAW, .inLaw, false, some CHILD_IN_LAW⟩
  | CHILD_IN_LAW => ⟨CHILD_IN_LAW, .inLaw, false, some PARENT_IN_LAW⟩
  | SIBLING_IN_LAW => ⟨SIBLING_IN_LAW, .inLaw, true, none⟩
  | STEP_PARENT => ⟨STEP_PARENT, .step, false, some STEP_CHILD⟩
  | STEP_CHILD => ⟨STEP_CHILD, .step, false, some STEP_PARENT⟩
  | GODPARENT => ⟨GODPARENT, .friend, false, some GODCHILD⟩
  | GODCHILD => ⟨GODCHILD, .friend, false, some GODPARENT⟩
  | ADOPTIVE_PARENT => ⟨ADOPTIVE_PARENT, .adoptive, false, some ADOPTIVE_CHILD⟩
  | ADOPTIVE_CHILD => ⟨ADOPTIVE_CHILD, .adoptive, false, some ADOPTIVE_PARENT⟩
  | GUARDIAN => ⟨GUARDIAN, .friend, false, some WARD⟩
  | WARD => ⟨WARD, .friend, false, some GUARDIAN⟩
  | CLOSE_FRIEND => ⟨CLOSE_FRIEND, .friend, true, none⟩
  | FAMILY_FRIEND => ⟨FAMILY_FRIEND, .friend, true, none⟩

/-- `getRelationshipInfo` from relationship-utils.ts. -/
def getRelationshipInfo (t : RelationshipType) : RelationshipInfo :=
  RELATIONSHIP_DEFINITIONS t

/-- `getReverseRelationshipType`:
`info.reverseType || (info.isMutual ? type : undefined)`. -/
def getReverseRelationshipType (t : RelationshipType) : Option RelationshipType :=
  match (getRelationshipInfo t).reverseType with
  | some r => some r
  | none => if (getRelationshipInfo t).isMutual then some t else none

/-- `isMutualRelationship` from relationship-utils.ts. -/
def isMutualRelationship (t : RelationshipType) : Bool :=
  (getRelationshipInfo t).isMutual

/-! ## Relationship route handlers (POST / DELETE on /api/relationships) -/

/-- The `MUTUAL_RELATIONSHIPS` object literal of the route file: maps
each of the 8 mutual types to itself, is `undefined` elsewhere. -/
def MUTUAL_RELATIONSHIPS : RelationshipType → Option RelationshipType
  | SIBLING => some SIBLING
  | HALF_SIBLING => some HALF_SIBLING
  | STEP_SIBLING => some STEP_SIBLING
  | FIRST_COUSIN => some FIRST_COUSIN
  | SECOND_COUSIN => some SECOND_COUSIN
  | SIBLING_IN_LAW => some SIBLING_IN_LAW
  | CLOSE_FRIEND => some CLOSE_FRIEND
  | FAMILY_FRIEND => some FAMILY_FRIEND
  | _ => none

/-- The `REVERSE_RELATIONSHIPS` object literal of the route file: the
14 asymmetric types in 7 inverse pairs, `undefined` elsewhere. -/
def REVERSE_RELATIONSHIPS : RelationshipType → Option RelationshipType
  | GRANDPARENT => some GRANDCHILD
  | GRANDCHILD => some GRANDPARENT
  | AUNT_UNCLE => some NIECE_NEPHEW
  | NIECE_NEPHEW => some AUNT_UNCLE
  | PARENT_IN_LAW => some CHILD_IN_LAW
  | CHILD_IN_LAW => some PARENT_IN_LAW
  | STEP_PARENT => some STEP_CHILD
  | STEP_CHILD => some STEP_PARENT
  | GODPARENT => some GODCHILD
  | GODCHILD => some GODPARENT
  | ADOPTIVE_PARENT => some ADOPTIVE_CHILD
  | ADOPTIVE_CHILD => some ADOPTIVE_PARENT
  | GUARDIAN => some WARD
  | WARD => some GUARDIAN
  | _ => none

/-- `REVERSE_RELATIONSHIPS[type] || MUTUAL_RELATIONSHIPS[type]` as used
by both the POST and DELETE handlers. -/
def reverseTypeFor (t : RelationshipType) : Option RelationshipType :=
  match REVERSE_RELATIONSHIPS t with
  | some r => some r
  | none => MUTUAL_RELATIONSHIPS t

/-- A stored relationship row.  `createdAt` is only used for result
ordering in GET and is omitted. -/
structure Relationship where
  id : Nat
  type : RelationshipType
  personFromId : String
  personToId : String
  deriving Repr, DecidableEq

/-- The relationship table plus the store's id generator. -/
structure RelState where
  rels : List Relationship
  nextId : Nat
  deriving Repr, DecidableEq

/-- Error outcomes of the POST handler: `InvalidInput` is the Zod
refine failure (400, `fromId == toId`), `Conflict` the duplicate check
(409). -/
inductive CreateError where
  | InvalidInput | Conflict
  deriving Repr, DecidableEq

/-- POST /api/relationships: validate (`personFromId !== personToId`),
reject an exact duplicate triple with 409, insert the primary row,
then insert the reverse row `(toId, fromId, reverseType)` unless one
already exists. -/
def createRelationship (s : RelState) (t : RelationshipType) (fromId toId : String) :
    RelState × Except CreateError Relationship :=
  if fromId == toId then
    (s, .error .InvalidInput)
  else if (s.rels.find? (fun r =>
      r.personFromId == fromId && r.personToId == toId && r.type == t)).isSome then
    (s, .error .Conflict)
  else
    let primary : Relationship := ⟨s.nextId, t, fromId, toId⟩
    let s1 : RelState := ⟨s.rels ++ [primary], s.nextId + 1⟩
    match reverseTypeFor t with
    | none => (s1, .ok primary)
    | some rt =>
      if (s1.rels.find? (fun r =>
          r.personFromId == toId && r.personToId == fromId && r.type == rt)).isSome then
        (s1, .ok primary)
      else
        (⟨s1.rels ++ [⟨s1.nextId, rt, toId, fromId⟩], s1.nextId + 1⟩, .ok primary)

/-- Error outcome of the DELETE handler (404). -/
inductive DeleteError where
  | NotFound
  deriving Repr, DecidableEq

/-- DELETE /api/relationships?id=…: look the row up (404 when absent),
delete it, then `deleteMany` every row matching
`(personToId, personFromId, reverseType)`. -/
def deleteRelationship (s : RelState) (rid : Nat) : RelState × Option DeleteError :=
  match s.rels.find? (fun r => r.id == rid) with
  | none => (s, some .NotFound)
  | some rel =>
    let s1 : RelState := ⟨s.rels.filter (fun r => r.id != rid), s.nextId⟩
    match reverseTypeFor rel.type with
    | none => (s1, none)
    | some rt =>
      (⟨s1.rels.filter (fun r =>
          !(r.personFromId == rel.personToId && r.personToId == rel.personFromId &&
            r.type == rt)), s1.nextId⟩, none)

/-! ## Person delete cascade (src/app/api/persons/[id]/route.ts) -/

/-- Clears all three reference fields of a person, as the cascade's
`updateMany` `data` clause does. -/
def clearRefs (p : Person) : Person :=
  ⟨p.id, p.firstName, p.lastName, p.gender, p.birthYear, p.deathYear,
   p.dateOfBirth, p.dateOfDeath, p.location, p.avatarColor, p.profilePhoto,
   none, none, none⟩

/-- DELETE /api/persons/[id]: first `updateMany` over every person whose
`fatherId`, `motherId` OR `spouseId` equals the deleted id, setting ALL
THREE fields to null on each match, then delete the person record.  The
Bool result is whether the person existed (the prisma `delete` throws
otherwise; the `updateMany` has already run either way — there is no
transaction). -/
def deletePersonCascade (persons : List Person) (pid : String) : List Person × Bool :=
  let updated := persons.map (fun p =>
    if p.fatherId == some pid || p.motherId == some pid || p.spouseId == some pid then
      clearRefs p
    else p)
  if updated.any (fun p => p.id == pid) then
    (updated.filter (fun p => p.id != pid), true)
  else
    (updated, false)

/-! ## Claims about the relationship reconciler -/

/-- Helper: on the route tables, a mutual type's reverse is itself. -/
theorem mutual_reverse_self (t rt : RelationshipType) :
    reverseTypeFor t = some rt → (MUTUAL_RELATIONSHIPS t).isSome → rt = t := by
  revert rt; cases t <;> decide

/-- C9: for every one of the 22 relationship types,
`getReverseRelationshipType` is defined, it is an involution, and it is
the identity exactly on the mutual types. -/
theorem reverse_type_involution :
    ∀ t : RelationshipType,
      (∃ r, getReverseRelationshipType t = some r ∧ getReverseRelationshipType r = some t) ∧
      (getReverseRelationshipType t = some t ↔ isMutualRelationship t = true) := by
  decide

/-- C3: when a record with the exact `(from, to, type)` triple already
exists (and the input passes validation, `from ≠ to`), a second
`createRelationship` fails with `Conflict` and returns the table
unchanged — no primary row and no reverse row is added. -/
theorem duplicate_create_conflict (s : RelState) (t : RelationshipType) (f g : String)
    (hne : f ≠ g)
    (hdup : ∃ r ∈ s.rels, r.personFromId = f ∧ r.personToId = g ∧ r.type = t) :
    createRelationship s t f g = (s, .error .Conflict) := by
  obtain ⟨r, hr, h1, h2, h3⟩ := hdup
  have hfound : (s.rels.find? (fun r =>
      r.personFromId == f && r.personToId == g && r.type == t)).isSome := by
    rw [List.find?_isSome]
    exact ⟨r, hr, by simp [h1, h2, h3]⟩
  unfold createRelationship
  rw [if_neg (by simpa using hne), if_pos hfound]

/-- C3 witness: a concrete duplicate creation is rejected with Conflict. -/
theorem duplicate_create_conflict_witness :
    createRelationship ⟨[⟨0, SIBLING, "A", "B"⟩], 1⟩ SIBLING "A" "B" =
      (⟨[⟨0, SIBLING, "A", "B"⟩], 1⟩, .error .Conflict) :=
  duplicate_create_conflict ⟨[⟨0, SIBLING, "A", "B"⟩], 1⟩ SIBLING "A" "B"
    (by decide) ⟨⟨0, SIBLING, "A", "B"⟩, by decide, rfl, rfl, rfl⟩

/-- C1: (create half) after every successful `createRelationship`, a
matching reverse record `(toId, fromId, reverseType)` is in the table,
with `reverseType = type` for mutual types; (delete half)
`deleteRelationship` on either record of such a pair removes the record
itself and every record matching the reverse triple, leaving all other
records untouched. -/
theorem reverse_pairing_invariant :
    (∀ (s : RelState) (t : RelationshipType) (f g : String) (s' : RelState)
        (r : Relationship),
      createRelationship s t f g = (s', .ok r) →
      ∀ rt, reverseTypeFor t = some rt →
        ((MUTUAL_RELATIONSHIPS t).isSome → rt = t) ∧
        ∃ rr ∈ s'.rels, rr.personFromId = g ∧ rr.personToId = f ∧ rr.type = rt) ∧
    (∀ (s : RelState) (rid : Nat) (rl : Relationship) (rt : RelationshipType),
      s.rels.find? (fun r => r.id == rid) = some rl →
      reverseTypeFor rl.type = some rt →
      (∃ r2 ∈ s.rels, r2.personFromId = rl.personToId ∧
        r2.personToId = rl.personFromId ∧ r2.type = rt) →
      (deleteRelationship s rid).2 = none ∧
      (∀ r ∈ (deleteRelationship s rid).1.rels, r.id ≠ rid) ∧
      (∀ r ∈ (deleteRelationship s rid).1.rels,
        ¬(r.personFromId = rl.personToId ∧ r.personToId = rl.personFromId ∧
          r.type = rt)) ∧
      (∀ r ∈ s.rels, r.id ≠ rid →
        ¬(r.personFromId = rl.personToId ∧ r.personToId = rl.personFromId ∧
          r.type = rt) →
        r ∈ (deleteRelationship s rid).1.rels)) := by
  constructor
  · intro s t f g s' r hc rt hrt
    refine ⟨mutual_reverse_self t rt hrt, ?_⟩
    simp only [createRelationship] at hc
    split at hc
    · exact absurd (congrArg Prod.snd hc) (by simp)
    · split at hc
      · exact absurd (congrArg Prod.snd hc) (by simp)
      · split at hc
        next hnone => rw [hnone] at hrt; cases hrt
        next rt2 hrt2 =>
          have hrteq : rt2 = rt := by rw [hrt2] at hrt; exact Option.some.inj hrt
          subst hrteq
          split at hc
          next hrev =>
            rw [List.find?_isSome] at hrev
            obtain ⟨rr, hmem, hpred⟩ := hrev
            have hs' : s' = ⟨s.rels ++ [⟨s.nextId, t, f, g⟩], s.nextId + 1⟩ :=
              (congrArg Prod.fst hc).symm
            simp only [Bool.and_eq_true, beq_iff_eq] at hpred
            exact ⟨rr, by rw [hs']; exact hmem, hpred.1.1, hpred.1.2, hpred.2⟩
          next hrev =>
            have hs' : s' = ⟨(s.rels ++ [⟨s.nextId, t, f, g⟩]) ++
                [⟨s.nextId + 1, rt2, g, f⟩], s.nextId + 2⟩ :=
              (congrArg Prod.fst hc).symm
            refine ⟨⟨s.nextId + 1, rt2, g, f⟩, ?_, rfl, rfl, rfl⟩
            rw [hs']
            exact List.mem_append_right _ (List.mem_singleton.mpr rfl)
  · intro s rid rl rt hfind hrt _hboth
    simp only [deleteRelationship, hfind, hrt]
    refine ⟨by trivial, ?_, ?_, ?_⟩
    · intro r hr
      have := (List.mem_filter.mp (List.mem_filter.mp hr).1).2
      simpa using this
    · intro r hr
      have := (List.mem_filter.mp hr).2
      simp only [Bool.not_eq_true', Bool.and_eq_false_iff, beq_eq_false_iff_ne,
        ne_eq] at this
      rintro ⟨e1, e2, e3⟩
      rcases this with (h | h) | h
      · exact h e1
      · exact h e2
      · exact h e3
    · intro r hr hid hnm
      refine List.mem_filter.mpr ⟨List.mem_filter.mpr ⟨hr, by simpa using hid⟩, ?_⟩
      simp only [Bool.not_eq_true', Bool.and_eq_false_iff, beq_eq_false_iff_ne, ne_eq]
      by_cases e1 : r.personFromId = rl.personToId
      · by_cases e2 : r.personToId = rl.personFromId
        · by_cases e3 : r.type = rt
          · exact absurd ⟨e1, e2, e3⟩ hnm
          · exact Or.inr e3
        · exact Or.inl (Or.inr e2)
      · exact Or.inl (Or.inl e1)

/-- C1 witness: creating a SIBLING link A→B yields the reverse row
B→A, and deleting the primary row removes both rows. -/
theorem reverse_pairing_invariant_witness :
    (∃ rr ∈ (createRelationship ⟨[], 0⟩ SIBLING "A" "B").1.rels,
        rr.personFromId = "B" ∧ rr.personToId = "A" ∧ rr.type = SIBLING) ∧
    (∀ r ∈ (deleteRelationship ⟨[⟨0, SIBLING, "A", "B"⟩, ⟨1, SIBLING, "B", "A"⟩], 2⟩
        0).1.rels, r.id ≠ 0) ∧
    (∀ r ∈ (deleteRelationship ⟨[⟨0, SIBLING, "A", "B"⟩, ⟨1, SIBLING, "B", "A"⟩], 2⟩
        0).1.rels,
      ¬(r.personFromId = "B" ∧ r.personToId = "A" ∧ r.type = SIBLING)) := by
  refine ⟨(reverse_pairing_invariant.1 ⟨[], 0⟩ SIBLING "A" "B"
      ⟨[⟨0, SIBLING, "A", "B"⟩, ⟨1, SIBLING, "B", "A"⟩], 2⟩ ⟨0, SIBLING, "A", "B"⟩
      rfl SIBLING rfl).2, ?_, ?_⟩
  · exact (reverse_pairing_invariant.2
      ⟨[⟨0, SIBLING, "A", "B"⟩, ⟨1, SIBLING, "B", "A"⟩], 2⟩ 0 ⟨0, SIBLING, "A", "B"⟩
      SIBLING rfl rfl
      ⟨⟨1, SIBLING, "B", "A"⟩, by decide, rfl, rfl, rfl⟩).2.1
  · exact (reverse_pairing_invariant.2
      ⟨[⟨0, SIBLING, "A", "B"⟩, ⟨1, SIBLING, "B", "A"⟩], 2⟩ 0 ⟨0, SIBLING, "A", "B"⟩
      SIBLING rfl rfl
      ⟨⟨1, SIBLING, "B", "A"⟩, by decide, rfl, rfl, rfl⟩).2.2.1

/-! ## Claim C2: the person-delete cascade -/

/-- Concrete persons exhibiting the cascade defect: B references A as
father and C as spouse. -/
def bugPersonA : Person :=
  ⟨"A", "Alan", "Doe", "MALE", none, none, none, none, none, "#3B82F6",
   none, none, none, none⟩

def bugPersonB : Person :=
  ⟨"B", "Ben", "Doe", "MALE", none, none, none, none, none, "#3B82F6",
   none, some "A", none, some "C"⟩

def bugPersonC : Person :=
  ⟨"C", "Cara", "Doe", "FEMALE", none, none, none, none, none, "#EC4899",
   none, none, none, none⟩

/-- C2 (code bug): deleting person A sets B's `spouseId` to null even
though it referenced C, not A — the `updateMany` clears all three
reference fields on any person matching any one of them, instead of
clearing only the dangling field. -/
theorem person_delete_clears_unrelated_spouse :
    ((deletePersonCascade [bugPersonA, bugPersonB, bugPersonC] "A").1.find?
        (fun p => p.id == "B")).map Person.spouseId = some none ∧
    bugPersonB.spouseId = some "C" ∧ "C" ≠ "A" := by
  refine ⟨rfl, rfl, by decide⟩

/-! ## Family set resolver (FamilyFilter.tsx) -/

/-- The filter settings object of `FamilyFilter` (`FilterSettings`). -/
structure FilterSettings where
  focusPersonId : Option String
  includeSpouses : Bool
  generationsUp : Nat
  generationsDown : Nat
  includeSiblings : Bool
  includeExtendedFamily : Bool
  deriving Repr, DecidableEq

/-- One value of the `familyMembers` map: person, relation label and
relative generation (negative for descendants). -/
structure FamilyEntry where
  person : Person
  relation : String
  generation : Int
  deriving Repr, DecidableEq

/-- The `familyMembers` JS `Map` in insertion order, keyed by person id. -/
abbrev Members := List (String × FamilyEntry)

/-- `addFamilyMember`: insert only when the id is not yet present
(first assignment wins). -/
def addFamilyMember (m : Members) (p : Person) (relation : String)
    (generation : Int) : Members :=
  if m.any (fun e => e.1 == p.id) then m else m ++ [(p.id, ⟨p, relation, generation⟩)]

/-- An ASCII apostrophe, used by the `"<relation>'s Spouse"` labels. -/
def apos : String := String.singleton (Char.ofNat 39)

/-- `s.repeat n` of JS. -/
def strRepeat (s : String) : Nat → String
  | 0 => ""
  | n + 1 => s ++ strRepeat s n

/-- Label for the father-side ancestor added at depth
`currentGeneration`. -/
def maleAncestorLabel (cg : Nat) : String :=
  if cg = 0 then "Father"
  else if cg = 1 then "Grandfather"
  else "Great-" ++ strRepeat "Great-" (cg - 2) ++ "Grandfather"

/-- Label for the mother-side ancestor added at depth
`currentGeneration`. -/
def femaleAncestorLabel (cg : Nat) : String :=
  if cg = 0 then "Mother"
  else if cg = 1 then "Grandmother"
  else "Great-" ++ strRepeat "Great-" (cg - 2) ++ "Grandmother"

/-- Label for a descendant added at depth `currentGeneration`. -/
def descendantLabel (cg : Nat) : String :=
  if cg = 0 then "Child"
  else if cg = 1 then "Grandchild"
  else "Great-" ++ strRepeat "Great-" (cg - 2) ++ "Grandchild"

/-- `getAncestors`: walk `fatherId`/`motherId` upward until
`maxGenerations`, labelling each ancestor, optionally adding an
ancestor's spouse distinct from the known co-parent as
Step-mother/Step-father.  (The `spouses` id set only feeds the
`spousesIncluded` statistic and is not modelled.) -/
def getAncestors (ps : List Person) (s : FilterSettings) (person : Person)
    (currentGeneration maxGenerations : Nat) (m : Members) : Members :=
  if currentGeneration ≥ maxGenerations then m
  else
    let m1 :=
      match person.fatherId with
      | none => m
      | some fidv =>
        match ps.find? (fun p => p.id == fidv) with
        | none => m
        | some father =>
          let relation := maleAncestorLabel currentGeneration
          let m2 := addFamilyMember m father relation ((currentGeneration : Int) + 1)
          let m3 :=
            if s.includeSpouses then
              match father.spouseId with
              | none => m2
              | some sid =>
                if some sid != person.motherId then
                  match ps.find? (fun p => p.id == sid) with
                  | none => m2
                  | some stepMother =>
                    addFamilyMember m2 stepMother "Step-mother"
                      ((currentGeneration : Int) + 1)
                else m2
            else m2
          getAncestors ps s father (currentGeneration + 1) maxGenerations m3
    match person.motherId with
    | none => m1
    | some midv =>
      match ps.find? (fun p => p.id == midv) with
      | none => m1
      | some mother =>
        let relation := femaleAncestorLabel currentGeneration
        let m4 := addFamilyMember m1 mother relation ((currentGeneration : Int) + 1)
        let m5 :=
          if s.includeSpouses then
            match mother.spouseId with
            | none => m4
            | some sid =>
              if some sid != person.fatherId then
                match ps.find? (fun p => p.id == sid) with
                | none => m4
                | some stepFather =>
                  addFamilyMember m4 stepFather "Step-father"
                    ((currentGeneration : Int) + 1)
              else m4
          else m4
        getAncestors ps s mother (currentGeneration + 1) maxGenerations m5
termination_by maxGenerations - currentGeneration
decreasing_by all_goals omega

/-- `getDescendants`: walk child-of edges downward until
`maxGenerations`, optionally adding each child's spouse. -/
def getDescendants (ps : List Person) (s : FilterSettings) (person : Person)
    (currentGeneration maxGenerations : Nat) (m : Members) : Members :=
  if currentGeneration ≥ maxGenerations then m
  else
    let children := ps.filter (fun p =>
      p.fatherId == some person.id || p.motherId == some person.id)
    children.foldl (fun acc child =>
      let relation := descendantLabel currentGeneration
      let acc1 := addFamilyMember acc child relation (-((currentGeneration : Int) + 1))
      let acc2 :=
        if s.includeSpouses then
          match child.spouseId with
          | none => acc1
          | some sid =>
            match ps.find? (fun p => p.id == sid) with
            | none => acc1
            | some childSpouse =>
              addFamilyMember acc1 childSpouse (relation ++ apos ++ "s Spouse")
                (-((currentGeneration : Int) + 1))
        else acc1
      getDescendants ps s child (currentGeneration + 1) maxGenerations acc2) m
termination_by maxGenerations - currentGeneration
decreasing_by all_goals omega

/-- `getSiblings`: other persons sharing a (present) parent id with the
focus person; full vs half siblings by exact parent-pair equality;
optionally their spouses and (with extended family) their children. -/
def getSiblings (ps : List Person) (s : FilterSettings) (person : Person)
    (m : Members) : Members :=
  if !s.includeSiblings then m
  else
    let siblings := ps.filter (fun p =>
      p.id != person.id &&
      ((person.fatherId.isSome && p.fatherId == person.fatherId) ||
       (person.motherId.isSome && p.motherId == person.motherId)))
    siblings.foldl (fun acc sibling =>
      let isFullSibling := person.fatherId == sibling.fatherId &&
        person.motherId == sibling.motherId
      let relation := if isFullSibling then "Sibling" else "Half-Sibling"
      let acc1 := addFamilyMember acc sibling relation 0
      let acc2 :=
        if s.includeSpouses then
          match sibling.spouseId with
          | none => acc1
          | some sid =>
            match ps.find? (fun p => p.id == sid) with
            | none => acc1
            | some siblingSpouse =>
              addFamilyMember acc1 siblingSpouse (relation ++ apos ++ "s Spouse") 0
        else acc1
      if s.includeExtendedFamily then
        (ps.filter (fun p =>
            p.fatherId == some sibling.id || p.motherId == some sibling.id)).foldl
          (fun a nibling => addFamilyMember a nibling "Niece/Nephew" (-1)) acc2
      else acc2) m

/-- `getExtendedFamily`: each parent's siblings as Aunt/Uncle, and
their children as Cousin. -/
def getExtendedFamily (ps : List Person) (s : FilterSettings) (person : Person)
    (m : Members) : Members :=
  if !s.includeExtendedFamily then m
  else
    [person.fatherId, person.motherId].foldl (fun acc parentId =>
      match parentId with
      | none => acc
      | some pid =>
        match ps.find? (fun p => p.id == pid) with
        | none => acc
        | some parent =>
          let parentSiblings := ps.filter (fun p =>
            p.id != pid &&
            ((parent.fatherId.isSome && p.fatherId == parent.fatherId) ||
             (parent.motherId.isSome && p.motherId == parent.motherId)))
          parentSiblings.foldl (fun a auntUncle =>
            let a1 := addFamilyMember a auntUncle "Aunt/Uncle" 1
            (ps.filter (fun p =>
                p.fatherId == some auntUncle.id ||
                p.motherId == some auntUncle.id)).foldl
              (fun a2 cousin => addFamilyMember a2 cousin "Cousin" 0) a1) acc) m

/-- The body of the `filteredResults` memo once the focus person has
been found: seed the map with the focus person, add their spouse,
then run ancestors, descendants, siblings and extended family in that
order. -/
def resolveFamilyMembers (ps : List Person) (s : FilterSettings)
    (focusPerson : Person) : Members :=
  let m0 : Members := [(focusPerson.id, ⟨focusPerson, "Focus Person", 0⟩)]
  let m1 :=
    if s.includeSpouses then
      match focusPerson.spouseId with
      | none => m0
      | some sid =>
        match ps.find? (fun p => p.id == sid) with
        | none => m0
        | some spouse => addFamilyMember m0 spouse "Spouse" 0
    else m0
  let m2 := getAncestors ps s focusPerson 0 s.generationsUp m1
  let m3 := getDescendants ps s focusPerson 0 s.generationsDown m2
  let m4 := getSiblings ps s focusPerson m3
  getExtendedFamily ps s focusPerson m4

/-- The person list produced by `filteredResults`: all persons when no
focus is set (or none found), else the family-member map's persons. -/
def filteredFamilyPersons (ps : List Person) (s : FilterSettings) : List Person :=
  match s.focusPersonId with
  | none => ps
  | some fid =>
    if ps.isEmpty then ps
    else
      match ps.find? (fun p => p.id == fid) with
      | none => ps
      | some focusPerson =>
        (resolveFamilyMembers ps s focusPerson).map (fun e => e.2.person)

/-- C4: with `generationsUp = 1`, `generationsDown = 0` and spouses,
siblings and extended family all disabled, the resolver returns exactly
the focus person (labelled Focus Person, generation 0) plus the father
(Father, generation 1) and mother (Mother, generation 1) insofar as they
exist in the working set.  The non-degeneracy hypotheses (no
self-parentage, father ≠ mother) hold in any genuine lineage dataset. -/
theorem resolve_parents_only (ps : List Person) (fid : String) (F : Person)
    (hF : ps.find? (fun p => p.id == fid) = some F)
    (hf : ∀ v, F.fatherId = some v → v ≠ F.id)
    (hm : ∀ v, F.motherId = some v → v ≠ F.id)
    (hfm : ∀ v w, F.fatherId = some v → F.motherId = some w → v ≠ w) :
    resolveFamilyMembers ps ⟨some fid, false, 1, 0, false, false⟩ F =
      [(F.id, ⟨F, "Focus Person", 0⟩)] ++
      (match F.fatherId.bind (fun v => ps.find? (fun p => p.id == v)) with
       | some fa => [(fa.id, ⟨fa, "Father", 1⟩)]
       | none => []) ++
      (match F.motherId.bind (fun v => ps.find? (fun p => p.id == v)) with
       | some mo => [(mo.id, ⟨mo, "Mother", 1⟩)]
       | none => []) := by
  cases hfa : F.fatherId with
  | none =>
    cases hmo : F.motherId with
    | none =>
      simp [resolveFamilyMembers, getAncestors, getDescendants, getSiblings,
        getExtendedFamily, hfa, hmo]
    | some w =>
      cases hmc : ps.find? (fun p => p.id == w) with
      | none =>
        simp [resolveFamilyMembers, getAncestors, getDescendants, getSiblings,
          getExtendedFamily, hfa, hmo, hmc]
      | some mo =>
        have hmoid : mo.id = w := by simpa using List.find?_some hmc
        have h1 : (F.id == mo.id) = false := by
          simp only [beq_eq_false_iff_ne, ne_eq, hmoid]
          exact fun h => hm w hmo h.symm
        simp [resolveFamilyMembers, getAncestors, getDescendants, getSiblings,
          getExtendedFamily, hfa, hmo, hmc, addFamilyMember, h1,
          femaleAncestorLabel]
  | some v =>
    cases hfc : ps.find? (fun p => p.id == v) with
    | none =>
      cases hmo : F.motherId with
      | none =>
        simp [resolveFamilyMembers, getAncestors, getDescendants, getSiblings,
          getExtendedFamily, hfa, hmo, hfc]
      | some w =>
        cases hmc : ps.find? (fun p => p.id == w) with
        | none =>
          simp [resolveFamilyMembers, getAncestors, getDescendants, getSiblings,
            getExtendedFamily, hfa, hmo, hfc, hmc]
        | some mo =>
          have hmoid : mo.id = w := by simpa using List.find?_some hmc
          have h1 : (F.id == mo.id) = false := by
            simp only [beq_eq_false_iff_ne, ne_eq, hmoid]
            exact fun h => hm w hmo h.symm
          simp [resolveFamilyMembers, getAncestors, getDescendants, getSiblings,
            getExtendedFamily, hfa, hmo, hfc, hmc, addFamilyMember, h1,
            femaleAncestorLabel]
    | some fa =>
      have hfaid : fa.id = v := by simpa using List.find?_some hfc
      have h1 : (F.id == fa.id) = false := by
        simp only [beq_eq_false_iff_ne, ne_eq, hfaid]
        exact fun h => hf v hfa h.symm
      cases hmo : F.motherId with
      | none =>
        simp [resolveFamilyMembers, getAncestors, getDescendants, getSiblings,
          getExtendedFamily, hfa, hmo, hfc, addFamilyMember, h1,
          maleAncestorLabel]
      | some w =>
        cases hmc : ps.find? (fun p => p.id == w) with
        | none =>
          simp [resolveFamilyMembers, getAncestors, getDescendants, getSiblings,
            getExtendedFamily, hfa, hmo, hfc, hmc, addFamilyMember, h1,
            maleAncestorLabel]
        | some mo =>
          have hmoid : mo.id = w := by simpa using List.find?_some hmc
          have h2 : (F.id == mo.id) = false := by
            simp only [beq_eq_false_iff_ne, ne_eq, hmoid]
            exact fun h => hm w hmo h.symm
          have h3 : (fa.id == mo.id) = false := by
            simp only [beq_eq_false_iff_ne, ne_eq, hfaid, hmoid]
            exact hfm v w hfa hmo
          simp [resolveFamilyMembers, getAncestors, getDescendants, getSiblings,
            getExtendedFamily, hfa, hmo, hfc, hmc, addFamilyMember, h1, h2, h3,
            maleAncestorLabel, femaleAncestorLabel]

/-- A five-generation lineage used as concrete resolver input:
g1 → g2 → g3 → f → c1, with m3 the focus person's mother. -/
def wpG1 : Person :=
  ⟨"g1", "Gen", "One", "MALE", some 1900, none, none, none, none, "#3B82F6",
   none, none, none, none⟩

def wpG2 : Person :=
  ⟨"g2", "Gen", "Two", "MALE", some 1925, none, none, none, none, "#3B82F6",
   none, some "g1", none, none⟩

def wpG3 : Person :=
  ⟨"g3", "Gen", "Three", "MALE", some 1950, none, none, none, none, "#3B82F6",
   none, some "g2", none, some "m3"⟩

def wpM3 : Person :=
  ⟨"m3", "Mary", "Three", "FEMALE", some 1952, none, none, none, none, "#EC4899",
   none, none, none, some "g3"⟩

def wpF : Person :=
  ⟨"f", "Frank", "Focus", "MALE", some 1975, none, none, none, none, "#3B82F6",
   none, some "g3", some "m3", none⟩

def wpC1 : Person :=
  ⟨"c1", "Carl", "One", "MALE", some 2000, none, none, none, none, "#3B82F6",
   none, some "f", none, none⟩

def wps : List Person := [wpG1, wpG2, wpG3, wpM3, wpF, wpC1]

/-- C4 witness: on the concrete 5-generation lineage the resolver with
`generationsUp = 1` and everything else off returns exactly focus,
father and mother with the right labels. -/
theorem resolve_parents_only_witness :
    resolveFamilyMembers wps ⟨some "f", false, 1, 0, false, false⟩ wpF =
      [("f", ⟨wpF, "Focus Person", 0⟩), ("g3", ⟨wpG3, "Father", 1⟩),
       ("m3", ⟨wpM3, "Mother", 1⟩)] :=
  resolve_parents_only wps "f" wpF rfl
    (by intro v hv; simp only [wpF] at hv; injection hv with h; subst h; decide)
    (by intro v hv; simp only [wpF] at hv; injection hv with h; subst h; decide)
    (by intro v w hv hw; simp only [wpF] at hv hw
        injection hv with h1; injection hw with h2; subst h1; subst h2; decide)

/-! ## Tree layout engine (FamilyTreeView.tsx)

The two `buildSubtree` closures in the component (one in the focused
branch, one in the normal branch) are line-for-line identical; a single
embedding serves both.  The recursion of the source is general
recursion on a possibly-cyclic parent graph, embedded here with an
explicit fuel parameter: `none` models non-termination, and any `some`
result is exactly the tree the source computes. -/

/-- `nodeSpacing.x` (180 units). -/
def horizontalSpacing : Int := 180

/-- `nodeSpacing.y` (120 units). -/
def verticalSpacing : Int := 120

/-- The scalar fields of a `TreeLayoutNode` (everything except the
recursive `spouse` and `children`). -/
structure NodeInfo where
  pid : String
  name : String
  gender : String
  avatarColor : String
  birthYear : Option Int
  deathYear : Option Int
  dateOfBirth : Option String
  dateOfDeath : Option String
  x : Int
  y : Int
  level : Nat
  idx : Nat
  subtreeWidth : Int
  deriving Repr, DecidableEq, Inhabited

/-- A layout node: scalar fields plus the optional adjacent spouse node
and the ordered child subtrees. -/
inductive LNode : Type where
  | mk (info : NodeInfo) (spouse : Option LNode) (children : List LNode) : LNode

def LNode.info : LNode → NodeInfo
  | .mk i _ _ => i

def LNode.spouse : LNode → Option LNode
  | .mk _ s _ => s

def LNode.children : LNode → List LNode
  | .mk _ _ c => c

def LNode.x (n : LNode) : Int := n.info.x

def LNode.y (n : LNode) : Int := n.info.y

def LNode.level (n : LNode) : Nat := n.info.level

def LNode.subtreeWidth (n : LNode) : Int := n.info.subtreeWidth

def LNode.pid (n : LNode) : String := n.info.pid

instance : Inhabited LNode := ⟨.mk default none []⟩

mutual
/-- Number of nodes created by the recursive `buildSubtree` calls below
a node (the node itself and its descendants through `children`; spouse
nodes are built inline and never counted). -/
def primaryCount : LNode → Nat
  | .mk _ _ cs => 1 + primaryCountList cs

def primaryCountList : List LNode → Nat
  | [] => 0
  | c :: cs => primaryCount c + primaryCountList cs
end

/-- Builds the node payload shared by primary and spouse nodes. -/
def personInfo (p : Person) (x y : Int) (level idx : Nat) (subtreeWidth : Int) :
    NodeInfo :=
  ⟨p.id, p.firstName ++ " " ++ p.lastName, p.gender, p.avatarColor,
   p.birthYear, p.deathYear, p.dateOfBirth, p.dateOfDeath,
   x, y, level, idx, subtreeWidth⟩

/-- Left-to-right construction of a list of sibling subtrees: builds
`f c i cnt` for each child `c` at successive indices `i`, threading
the `(totalNodes, maxDepth)` counters. -/
def buildIndexed (f : Person → Nat → Nat × Nat → Option (LNode × (Nat × Nat))) :
    List Person → Nat → Nat × Nat → Option (List LNode × (Nat × Nat))
  | [], _, cnt => some ([], cnt)
  | c :: cs, i, cnt =>
    match f c i cnt with
    | none => none
    | some (n, cnt1) =>
      match buildIndexed f cs (i + 1) cnt1 with
      | none => none
      | some (ns, cnt2) => some (n :: ns, cnt2)

/-- `buildSubtree(person, level, startX)` with the shared mutable
`totalNodes`/`maxDepth` counters threaded explicitly.  Children are the
working-set members whose `fatherId` or `motherId` is this person; the
spouse (if present in the working set) becomes a childless sibling node
at `startX + 140`; the subtree width starts at
`max(1, childCount) * 180` and, when there are children, is recomputed
as the max of that and the sum of the children's final widths. -/
def buildSubtree (ps : List Person) : Nat → Person → Nat → Int → Nat × Nat →
    Option (LNode × (Nat × Nat))
  | 0, _, _, _, _ => none
  | fuel + 1, person, level, startX, (tn, md) =>
    let tn1 := tn + 1
    let md1 := max md level
    let children := ps.filter (fun p =>
      p.fatherId == some person.id || p.motherId == some person.id)
    let spouse : Option Person :=
      match person.spouseId with
      | some sid => ps.find? (fun p => p.id == sid)
      | none => none
    let subtreeWidth : Int := ((max 1 children.length : Nat) : Int) * horizontalSpacing
    let spouseNode : Option LNode := spouse.map (fun sp =>
      .mk (personInfo sp (startX + 140) ((level : Int) * verticalSpacing) level 0 0)
        none [])
    match children with
    | [] =>
      some (.mk (personInfo person startX ((level : Int) * verticalSpacing)
        level 0 subtreeWidth) spouseNode [], (tn1, md1))
    | _ :: _ =>
      let childStartX := startX - subtreeWidth / 2 + horizontalSpacing / 2
      match buildIndexed (fun c i cnt =>
          buildSubtree ps fuel c (level + 1)
            (childStartX + (i : Int) * horizontalSpacing) cnt)
          children 0 (tn1, md1) with
      | none => none
      | some (ns, cnt) =>
        let childrenWidth := (ns.map LNode.subtreeWidth).sum
        some (.mk (personInfo person startX ((level : Int) * verticalSpacing)
          level 0 (max subtreeWidth childrenWidth)) spouseNode ns, cnt)

/-- `findTopAncestor` of the focused branch: walk parents restricted to
the working set; with both parents present prefer the one with the
earlier (truthy) birth year, the one that has a birth year, or the
father.  Fuel models the unbounded recursion on cyclic inputs. -/
def findTopAncestor (ps : List Person) : Nat → Person → Option Person
  | 0, _ => none
  | fuel + 1, person =>
    let father :=
      match person.fatherId with
      | some fidv => ps.find? (fun p => p.id == fidv)
      | none => none
    let mother :=
      match person.motherId with
      | some midv => ps.find? (fun p => p.id == midv)
      | none => none
    match father, mother with
    | none, none => some person
    | some f, none => findTopAncestor ps fuel f
    | none, some m => findTopAncestor ps fuel m
    | some f, some m =>
      let chosenParent :=
        match yearVal f.birthYear, yearVal m.birthYear with
        | some fb, some mb => if fb ≤ mb then f else m
        | none, some _ => m
        | _, _ => f
      findTopAncestor ps fuel chosenParent

/-- A person with neither `fatherId` nor `motherId` (a root of the
ALL_FAMILIES mode). -/
def isParentless (p : Person) : Bool :=
  p.fatherId.isNone && p.motherId.isNone

/-- One step of the `reduce` that picks the fallback root: keep the
accumulator unless the current person has a (truthy) birth year and the
accumulator does not, or both do and the current one's is strictly
earlier. -/
def oldestStep (oldest current : Person) : Person :=
  match yearVal oldest.birthYear, yearVal current.birthYear with
  | none, some _ => current
  | some _, none => oldest
  | some ob, some cb => if cb < ob then current else oldest
  | none, none => oldest

/-- ALL_FAMILIES root selection: every parentless person; when there is
none and the working set is non-empty, the single fallback root chosen
by the `reduce` seeded with the first person. -/
def allFamiliesRoots (d : List Person) : List Person :=
  match d.filter isParentless, d with
  | [], a :: rest => [(a :: rest).foldl oldestStep a]
  | roots, _ => roots

/-- The `stats` object of `treeData`: `families` and `focusedOn` are
absent (`none`) on the empty early return. -/
structure LayoutStats where
  totalNodes : Nat
  maxDepth : Nat
  generations : Nat
  families : Option Nat
  focusedOn : Option String
  deriving Repr, DecidableEq, Inhabited

/-- The FOCUSED branch of `buildSingleFocusedTree`: find the focus
person (empty layout when absent from the working set), walk to the
single top ancestor, and lay out one tree rooted there at x = 400 with
fresh counters; `families = 1` and `focusedOn` is the focus person's
display name. -/
def buildFocusedTree (dataToUse : List Person) (fuel : Nat) (fid : String) :
    Option (List LNode × LayoutStats) :=
  match dataToUse.find? (fun p => p.id == fid) with
  | none => some ([], ⟨0, 0, 0, none, none⟩)
  | some focusPerson =>
    match findTopAncestor dataToUse fuel focusPerson with
    | none => none
    | some singleRoot =>
      match buildSubtree dataToUse fuel singleRoot 0 400 (0, 0) with
      | none => none
      | some (n, (tn, md)) =>
        some ([n], ⟨tn, md, md + 1, some 1,
          some (focusPerson.firstName ++ " " ++ focusPerson.lastName)⟩)

/-- The NORMAL (ALL_FAMILIES) branch of `buildSingleFocusedTree`: one
tree per root, roots anchored at `index * 500 + 300`, shared counters
threaded left to right, `families` = number of roots. -/
def buildAllFamilies (dataToUse : List Person) (fuel : Nat) :
    Option (List LNode × LayoutStats) :=
  match buildIndexed (fun root i cnt =>
      buildSubtree dataToUse fuel root 0 ((i : Int) * 500 + 300) cnt)
      (allFamiliesRoots dataToUse) 0 (0, 0) with
  | none => none
  | some (ns, (tn, md)) =>
    some (ns, ⟨tn, md, md + 1, some ns.length, none⟩)

/-- The `treeData` memo: pick the working set, then either the focused
single tree (when a focus id is set and the view is filtered) or one
tree per ALL_FAMILIES root. -/
def buildLayout (filteredPersons persons : List Person)
    (focusPersonId : Option String) (isFiltered : Bool) (fuel : Nat) :
    Option (List LNode × LayoutStats) :=
  let dataToUse := if filteredPersons.length > 0 then filteredPersons else persons
  if dataToUse.length = 0 then some ([], ⟨0, 0, 0, none, none⟩)
  else
    match focusPersonId, isFiltered with
    | some fid, true => buildFocusedTree dataToUse fuel fid
    | _, _ => buildAllFamilies dataToUse fuel

/-! ## Layout invariants -/

/-- Width invariant of one node: a childless node keeps its initial
width `max(1,0) * 180 = 180`; a node with children has width
`max(childCount * 180, sum of the children's final widths)`. -/
def WidthP (n : LNode) : Prop :=
  (n.children = [] → n.subtreeWidth = horizontalSpacing) ∧
  (n.children ≠ [] →
    n.subtreeWidth = max ((n.children.length : Int) * horizontalSpacing)
      ((n.children.map LNode.subtreeWidth).sum))

/-- Child-anchor invariant of one node: child `i` sits at
`parentX - initialWidth/2 + spacing/2 + i * spacing`, where
`initialWidth = max(1, childCount) * spacing`. -/
def ChildXP (n : LNode) : Prop :=
  ∀ i (hi : i < n.children.length),
    (n.children.get ⟨i, hi⟩).x =
      n.x - ((max 1 n.children.length : Nat) : Int) * horizontalSpacing / 2 +
        horizontalSpacing / 2 + (i : Int) * horizontalSpacing

/-- Generation invariant of one node: `y = level * 120`, the spouse (if
any) sits at the same level with the same `y` rule, and every child is
one level down. -/
def LevelP (n : LNode) : Prop :=
  n.y = (n.level : Int) * verticalSpacing ∧
  (∀ s, n.spouse = some s → s.level = n.level ∧
    s.y = (s.level : Int) * verticalSpacing) ∧
  (∀ c ∈ n.children, c.level = n.level + 1)

/-- Spouse-leaf invariant of one node: an attached spouse node has no
children, width 0 and no spouse of its own. -/
def SpouseLeafP (n : LNode) : Prop :=
  ∀ s, n.spouse = some s → s.children = [] ∧ s.subtreeWidth = 0 ∧ s.spouse = none

/-- `P` holds at every node of the tree, spouse nodes included. -/
inductive AllNodes (P : LNode → Prop) : LNode → Prop where
  | intro (n : LNode) (hp : P n) (hs : ∀ s, n.spouse = some s → AllNodes P s)
      (hc : ∀ c ∈ n.children, AllNodes P c) : AllNodes P n

/-- `P` holds at every primary node (the node and its recursive
children; spouse nodes excluded). -/
inductive AllPrimary (P : LNode → Prop) : LNode → Prop where
  | intro (n : LNode) (hp : P n) (hc : ∀ c ∈ n.children, AllPrimary P c) :
      AllPrimary P n

theorem AllNodes_mono {P Q : LNode → Prop} (h : ∀ n, P n → Q n) :
    ∀ n, AllNodes P n → AllNodes Q n := by
  intro n hn
  induction hn with
  | intro n hp hs hc ihs ihc => exact .intro n (h n hp) ihs ihc

/-- Elementwise specification of `buildIndexed`: if every `f`-call
satisfies `Q` at its index and advances the node counter by the node's
primary count, then the built list does so elementwise and in total. -/
theorem buildIndexed_sound
    (f : Person → Nat → Nat × Nat → Option (LNode × (Nat × Nat)))
    (Q : LNode → Nat → Prop)
    (hf : ∀ c i tn md node tn' md',
      f c i (tn, md) = some (node, (tn', md')) →
      Q node i ∧ tn' = tn + primaryCount node) :
    ∀ (cs : List Person) (i : Nat) (tn md : Nat) (ns : List LNode) (tn' md' : Nat),
      buildIndexed f cs i (tn, md) = some (ns, (tn', md')) →
      ns.length = cs.length ∧
      (∀ j (hj : j < ns.length), Q (ns.get ⟨j, hj⟩) (i + j)) ∧
      tn' = tn + primaryCountList ns := by
  intro cs
  induction cs with
  | nil =>
    intro i tn md ns tn' md' h
    simp only [buildIndexed, Option.some.injEq, Prod.mk.injEq] at h
    obtain ⟨h1, h2, h3⟩ := h
    subst h1; subst h2
    refine ⟨rfl, by intro j hj; exact absurd hj (by simp), ?_⟩
    simp [primaryCountList, ← h3]
  | cons c cs ihc =>
    intro i tn md ns tn' md' h
    simp only [buildIndexed] at h
    cases hn : f c i (tn, md) with
    | none => simp [hn] at h
    | some pr =>
      obtain ⟨n, tn1, md1⟩ := pr
      cases hrest : buildIndexed f cs (i + 1) (tn1, md1) with
      | none => simp [hn, hrest] at h
      | some pr2 =>
        obtain ⟨ns2, tn2, md2⟩ := pr2
        simp only [hn, hrest, Option.some.injEq, Prod.mk.injEq] at h
        obtain ⟨h1, h2, h3⟩ := h
        subst_vars
        obtain ⟨hQ, hcount⟩ := hf c i tn md n tn1 md1 hn
        obtain ⟨hlen, hQs, htn⟩ := ihc (i + 1) tn1 md1 ns2 tn2 md2 hrest
        refine ⟨by simp [hlen], ?_, ?_⟩
        · intro j hj
          cases j with
          | zero => simpa using hQ
          | succ j =>
            have hj2 : j < ns2.length := by simpa using hj
            have hq := hQs j hj2
            have hget : (n :: ns2).get ⟨j + 1, hj⟩ = ns2.get ⟨j, hj2⟩ := rfl
            rw [hget, show i + (j + 1) = i + 1 + j by omega]
            exact hq
        · have he : primaryCountList (n :: ns2) =
              primaryCount n + primaryCountList ns2 := rfl
          rw [htn, hcount, he]
          omega

/-- The conjunction of per-node layout invariants established for every
node of a built subtree. -/
def NodeP (n : LNode) : Prop := LevelP n ∧ ChildXP n ∧ SpouseLeafP n

/-- A spouse node as constructed by `buildSubtree` satisfies every
per-node invariant (all its recursive obligations are vacuous). -/
theorem spouse_allnodes (sp : Person) (startX : Int) (level : Nat) :
    AllNodes NodeP
      (.mk (personInfo sp (startX + 140) ((level : Int) * verticalSpacing) level 0 0)
        none []) := by
  refine .intro _ ⟨⟨rfl, ?_, ?_⟩, ?_, ?_⟩ ?_ ?_
  · intro s hs; cases hs
  · intro c hc; cases hc
  · intro i hi; exact absurd hi (by simp [LNode.children])
  · intro s hs; cases hs
  · intro s hs; cases hs
  · intro c hc; cases hc

/-- Core soundness of `buildSubtree`: any produced tree has the stated
level and anchor, satisfies all per-node layout invariants (width,
child anchors, generation levels, spouse leaves), and advances the
`totalNodes` counter by exactly the number of primary nodes built. -/
theorem buildSubtree_sound (ps : List Person) :
    ∀ (fuel : Nat) (person : Person) (level : Nat) (startX : Int) (tn md : Nat)
      (node : LNode) (tn' md' : Nat),
      buildSubtree ps fuel person level startX (tn, md) = some (node, (tn', md')) →
      node.level = level ∧ node.x = startX ∧
      AllNodes NodeP node ∧ AllPrimary WidthP node ∧
      tn' = tn + primaryCount node := by
  intro fuel
  induction fuel with
  | zero =>
    intro person level startX tn md node tn' md' h
    exact absurd h (by simp [buildSubtree])
  | succ fuel ih =>
    intro person level startX tn md node tn' md' h
    simp only [buildSubtree] at h
    cases hch : ps.filter (fun p =>
        p.fatherId == some person.id || p.motherId == some person.id) with
    | nil =>
      simp only [hch, Option.some.injEq, Prod.mk.injEq] at h
      obtain ⟨h1, h2, h3⟩ := h
      subst_vars
      refine ⟨rfl, rfl, ?_, ?_, ?_⟩
      · refine .intro _ ⟨⟨rfl, ?_, ?_⟩, ?_, ?_⟩ ?_ ?_
        · intro s hs
          simp only [LNode.spouse] at hs
          rw [Option.map_eq_some'] at hs
          obtain ⟨sp, hsp, hfs⟩ := hs
          subst hfs
          exact ⟨rfl, rfl⟩
        · intro c hc
          simp only [LNode.children] at hc
          cases hc
        · intro i hi
          simp only [LNode.children] at hi
          exact absurd hi (by simp)
        · intro s hs
          simp only [LNode.spouse] at hs
          rw [Option.map_eq_some'] at hs
          obtain ⟨sp, hsp, hfs⟩ := hs
          subst hfs
          exact ⟨rfl, rfl, rfl⟩
        · intro s hs
          simp only [LNode.spouse] at hs
          rw [Option.map_eq_some'] at hs
          obtain ⟨sp, hsp, hfs⟩ := hs
          subst hfs
          exact spouse_allnodes sp startX level
        · intro c hc
          simp only [LNode.children] at hc
          cases hc
      · refine .intro _ ⟨?_, ?_⟩ ?_
        · intro _
          show ((max 1 (List.length ([] : List Person)) : Nat) : Int) *
            horizontalSpacing = horizontalSpacing
          decide
        · intro hne
          exact absurd rfl hne
        · intro c hc
          simp only [LNode.children] at hc
          cases hc
      · rfl
    | cons c cs =>
      simp only [hch] at h
      split at h
      · exact absurd h (by simp)
      · rename_i ns cnt hbuild
        obtain ⟨tn2, md2⟩ := cnt
        simp only [Option.some.injEq, Prod.mk.injEq] at h
        obtain ⟨h1, h2, h3⟩ := h
        subst_vars
        obtain ⟨hlen, hQs, htn⟩ := buildIndexed_sound _
          (fun nd i => nd.level = level + 1 ∧
            nd.x = startX -
              ((max 1 (c :: cs).length : Nat) : Int) * horizontalSpacing / 2 +
              horizontalSpacing / 2 + (i : Int) * horizontalSpacing ∧
            AllNodes NodeP nd ∧ AllPrimary WidthP nd)
          (fun c0 i tn0 md0 nd tn0' md0' hcall => by
            obtain ⟨ha, hb, hc2, hd, he⟩ :=
              ih c0 (level + 1) _ tn0 md0 nd tn0' md0' hcall
            exact ⟨⟨ha, hb, hc2, hd⟩, he⟩)
          (c :: cs) 0 (tn + 1) (max md level) ns tn2 md2 hbuild
        have hm : max 1 (c :: cs).length = ns.length := by
          rw [hlen]; exact Nat.max_eq_right (by simp [List.length_cons])
        refine ⟨rfl, rfl, ?_, ?_, ?_⟩
        · refine .intro _ ⟨⟨rfl, ?_, ?_⟩, ?_, ?_⟩ ?_ ?_
          · intro s hs
            simp only [LNode.spouse] at hs
            rw [Option.map_eq_some'] at hs
            obtain ⟨sp, hsp, hfs⟩ := hs
            subst hfs
            exact ⟨rfl, rfl⟩
          · intro c' hc'
            simp only [LNode.children] at hc'
            obtain ⟨⟨j, hj⟩, rfl⟩ := List.mem_iff_get.mp hc'
            exact (hQs j hj).1
          · intro i hi
            simp only [LNode.children] at hi
            have hq := (hQs i hi).2.1
            show (ns.get ⟨i, hi⟩).x = startX -
              ((max 1 ns.length : Nat) : Int) * horizontalSpacing / 2 +
              horizontalSpacing / 2 + (i : Int) * horizontalSpacing
            have hm2 : max 1 ns.length = ns.length := by
              rw [hlen]; exact Nat.max_eq_right (by simp [List.length_cons])
            rw [hm2]
            rw [hm] at hq
            simpa using hq
          · intro s hs
            simp only [LNode.spouse] at hs
            rw [Option.map_eq_some'] at hs
            obtain ⟨sp, hsp, hfs⟩ := hs
            subst hfs
            exact ⟨rfl, rfl, rfl⟩
          · intro s hs
            simp only [LNode.spouse] at hs
            rw [Option.map_eq_some'] at hs
            obtain ⟨sp, hsp, hfs⟩ := hs
            subst hfs
            exact spouse_allnodes sp startX level
          · intro c' hc'
            simp only [LNode.children] at hc'
            obtain ⟨⟨j, hj⟩, rfl⟩ := List.mem_iff_get.mp hc'
            exact (hQs j hj).2.2.1
        · refine .intro _ ⟨?_, ?_⟩ ?_
          · intro h0
            simp only [LNode.children] at h0
            rw [h0] at hlen
            simp at hlen
          · intro _
            show max (((max 1 (c :: cs).length : Nat) : Int) * horizontalSpacing)
                ((ns.map LNode.subtreeWidth).sum) =
              max ((ns.length : Int) * horizontalSpacing)
                ((ns.map LNode.subtreeWidth).sum)
            rw [hm]
          · intro c' hc'
            simp only [LNode.children] at hc'
            obtain ⟨⟨j, hj⟩, rfl⟩ := List.mem_iff_get.mp hc'
            exact (hQs j hj).2.2.2
        · rw [htn]
          show tn + 1 + primaryCountList ns = tn + (1 + primaryCountList ns)
          omega

/-- Soundness of the ALL_FAMILIES forest construction: every root tree
starts at level 0, satisfies the per-node invariants, and the counter
totals the primary nodes. -/
theorem buildLayout_normal_sound (d : List Person) (fuel : Nat)
    (ns : List LNode) (tn md : Nat)
    (hbi : buildIndexed (fun root i cnt =>
        buildSubtree d fuel root 0 ((i : Int) * 500 + 300) cnt)
      (allFamiliesRoots d) 0 (0, 0) = some (ns, (tn, md))) :
    (∀ r ∈ ns, r.level = 0 ∧ AllNodes NodeP r ∧ AllPrimary WidthP r) ∧
    tn = primaryCountList ns := by
  obtain ⟨hlen, hQs, htn⟩ := buildIndexed_sound _
    (fun nd _ => nd.level = 0 ∧ AllNodes NodeP nd ∧ AllPrimary WidthP nd)
    (fun c0 i tn0 md0 nd tn0' md0' hcall => by
      obtain ⟨ha, hb, hcA, hdW, he⟩ :=
        buildSubtree_sound d fuel c0 0 _ tn0 md0 nd tn0' md0' hcall
      exact ⟨⟨ha, hcA, hdW⟩, he⟩)
    (allFamiliesRoots d) 0 0 0 ns tn md hbi
  refine ⟨?_, by simpa using htn⟩
  intro r hr
  obtain ⟨⟨j, hj⟩, rfl⟩ := List.mem_iff_get.mp hr
  exact hQs j hj

/-- Soundness of `buildAllFamilies`. -/
theorem buildAllFamilies_sound (d : List Person) (fuel : Nat)
    (roots : List LNode) (stats : LayoutStats)
    (h : buildAllFamilies d fuel = some (roots, stats)) :
    (∀ r ∈ roots, r.level = 0 ∧ AllNodes NodeP r ∧ AllPrimary WidthP r) ∧
    stats.totalNodes = primaryCountList roots := by
  cases hbi : buildIndexed (fun root i cnt =>
      buildSubtree d fuel root 0 ((i : Int) * 500 + 300) cnt)
      (allFamiliesRoots d) 0 (0, 0) with
  | none => simp only [buildAllFamilies, hbi] at h; cases h
  | some pr =>
    obtain ⟨ns, tn, md⟩ := pr
    simp only [buildAllFamilies, hbi, Option.some.injEq, Prod.mk.injEq] at h
    obtain ⟨h1, h2⟩ := h
    subst_vars
    exact buildLayout_normal_sound d fuel ns tn md hbi

/-- Soundness of `buildFocusedTree`. -/
theorem buildFocusedTree_sound (d : List Person) (fuel : Nat) (fid : String)
    (roots : List LNode) (stats : LayoutStats)
    (h : buildFocusedTree d fuel fid = some (roots, stats)) :
    (∀ r ∈ roots, r.level = 0 ∧ AllNodes NodeP r ∧ AllPrimary WidthP r) ∧
    stats.totalNodes = primaryCountList roots := by
  cases hfind : d.find? (fun p => p.id == fid) with
  | none =>
    simp only [buildFocusedTree, hfind, Option.some.injEq, Prod.mk.injEq] at h
    obtain ⟨h1, h2⟩ := h
    subst_vars
    exact ⟨fun r hr => absurd hr (by simp), rfl⟩
  | some fp2 =>
    cases htop : findTopAncestor d fuel fp2 with
    | none => simp only [buildFocusedTree, hfind, htop] at h; cases h
    | some root0 =>
      cases hbs : buildSubtree d fuel root0 0 400 (0, 0) with
      | none => simp only [buildFocusedTree, hfind, htop, hbs] at h; cases h
      | some pr =>
        obtain ⟨n, tn, md⟩ := pr
        simp only [buildFocusedTree, hfind, htop, hbs, Option.some.injEq,
          Prod.mk.injEq] at h
        obtain ⟨h1, h2⟩ := h
        subst_vars
        obtain ⟨hl, hx, hA, hW, hc⟩ :=
          buildSubtree_sound d fuel root0 0 400 0 0 n tn md hbs
        refine ⟨?_, ?_⟩
        · intro r hr
          rw [List.mem_singleton] at hr
          subst hr
          exact ⟨hl, hA, hW⟩
        · show tn = primaryCountList [n]
          have hpl : primaryCountList [n] = primaryCount n + 0 := rfl
          omega

/-- Soundness of the whole `treeData` construction, both modes: every
produced root has level 0 and satisfies the per-node invariants
everywhere, and `stats.totalNodes` counts exactly the primary nodes. -/
theorem buildLayout_sound (fp ps : List Person) (fpid : Option String)
    (isF : Bool) (fuel : Nat) (roots : List LNode) (stats : LayoutStats)
    (h : buildLayout fp ps fpid isF fuel = some (roots, stats)) :
    (∀ r ∈ roots, r.level = 0 ∧ AllNodes NodeP r ∧ AllPrimary WidthP r) ∧
    stats.totalNodes = primaryCountList roots := by
  have hempty : ∀ (he : (some (([] : List LNode),
        (⟨0, 0, 0, none, none⟩ : LayoutStats)) : Option (List LNode × LayoutStats)) =
        some (roots, stats)),
      (∀ r ∈ roots, r.level = 0 ∧ AllNodes NodeP r ∧ AllPrimary WidthP r) ∧
      stats.totalNodes = primaryCountList roots := by
    intro he
    simp only [Option.some.injEq, Prod.mk.injEq] at he
    obtain ⟨h1, h2⟩ := he
    subst_vars
    exact ⟨fun r hr => absurd hr (by simp), rfl⟩
  cases fpid with
  | none =>
    simp only [buildLayout] at h
    split at h <;> split at h
    · exact hempty h
    · exact buildAllFamilies_sound _ fuel roots stats h
    · exact hempty h
    · exact buildAllFamilies_sound _ fuel roots stats h
  | some fid =>
    cases isF with
    | false =>
      simp only [buildLayout] at h
      split at h <;> split at h
      · exact hempty h
      · exact buildAllFamilies_sound _ fuel roots stats h
      · exact hempty h
      · exact buildAllFamilies_sound _ fuel roots stats h
    | true =>
      simp only [buildLayout] at h
      split at h <;> split at h
      · exact hempty h
      · exact buildFocusedTree_sound _ fuel fid roots stats h
      · exact hempty h
      · exact buildFocusedTree_sound _ fuel fid roots stats h

/-- C5: in every built layout, a node without children has final
subtreeWidth `horizontalSpacing` (= max(1,0)·180), and a node with
children has final subtreeWidth
`max(childCount · horizontalSpacing, sum of children's final widths)`. -/
theorem layout_subtree_widths (fp ps : List Person) (fpid : Option String)
    (isF : Bool) (fuel : Nat) (roots : List LNode) (stats : LayoutStats)
    (h : buildLayout fp ps fpid isF fuel = some (roots, stats)) :
    ∀ r ∈ roots, AllPrimary WidthP r := by
  intro r hr
  exact ((buildLayout_sound fp ps fpid isF fuel roots stats h).1 r hr).2.2

/-- C6: in every built layout (both modes), each root has level 0,
every parent–child edge increments the level by one, and every node
(spouses included) sits at `y = level · verticalSpacing`. -/
theorem layout_generation_levels (fp ps : List Person) (fpid : Option String)
    (isF : Bool) (fuel : Nat) (roots : List LNode) (stats : LayoutStats)
    (h : buildLayout fp ps fpid isF fuel = some (roots, stats)) :
    ∀ r ∈ roots, r.level = 0 ∧ AllNodes LevelP r := by
  intro r hr
  obtain ⟨hl, hA, _⟩ := (buildLayout_sound fp ps fpid isF fuel roots stats h).1 r hr
  exact ⟨hl, AllNodes_mono (fun n hn => hn.1) r hA⟩

/-- C7: in every built layout, the children of a node are anchored at
`parentX − initialWidth/2 + horizontalSpacing/2 + index · horizontalSpacing`
(initialWidth = max(1, childCount) · horizontalSpacing), i.e. successive
children are exactly one horizontalSpacing unit apart. -/
theorem layout_child_anchors (fp ps : List Person) (fpid : Option String)
    (isF : Bool) (fuel : Nat) (roots : List LNode) (stats : LayoutStats)
    (h : buildLayout fp ps fpid isF fuel = some (roots, stats)) :
    ∀ r ∈ roots, AllNodes ChildXP r := by
  intro r hr
  obtain ⟨_, hA, _⟩ := (buildLayout_sound fp ps fpid isF fuel roots stats h).1 r hr
  exact AllNodes_mono (fun n hn => hn.2.1) r hA

/-- C10: in every built layout, spouse nodes are childless leaves of
width 0 with no spouse of their own, and `stats.totalNodes` counts
exactly the primary nodes built by the recursion (spouse nodes are not
counted). -/
theorem layout_spouse_leaves (fp ps : List Person) (fpid : Option String)
    (isF : Bool) (fuel : Nat) (roots : List LNode) (stats : LayoutStats)
    (h : buildLayout fp ps fpid isF fuel = some (roots, stats)) :
    (∀ r ∈ roots, AllNodes SpouseLeafP r) ∧
    stats.totalNodes = primaryCountList roots := by
  obtain ⟨hall, htn⟩ := buildLayout_sound fp ps fpid isF fuel roots stats h
  refine ⟨?_, htn⟩
  intro r hr
  exact AllNodes_mono (fun n hn => hn.2.2) r ((hall r hr).2.1)

/-- Concrete layout input: A and S are parentless spouses, B and C are
A's children. -/
def wlA : Person :=
  ⟨"A", "Ann", "Lay", "FEMALE", some 1940, none, none, none, none, "#EC4899",
   none, none, none, some "S"⟩

def wlS : Person :=
  ⟨"S", "Sam", "Lay", "MALE", some 1938, none, none, none, none, "#3B82F6",
   none, none, none, some "A"⟩

def wlB : Person :=
  ⟨"B", "Bo", "Lay", "MALE", some 1960, none, none, none, none, "#3B82F6",
   none, some "A", none, none⟩

def wlC : Person :=
  ⟨"C", "Cy", "Lay", "MALE", some 1962, none, none, none, none, "#3B82F6",
   none, some "A", none, none⟩

def wlPersons : List Person := [wlA, wlS, wlB, wlC]

/-- The layout computed on the concrete input (ALL_FAMILIES mode). -/
def wLayout : List LNode × LayoutStats :=
  (buildLayout [] wlPersons none false 3).getD ([], default)

def wlRoot0 : LNode := wLayout.1.headI

def wlRoot1 : LNode := wLayout.1.getD 1 default

/-- C5 witness: the width invariant holds on the concrete layout's
first root tree. -/
theorem layout_subtree_widths_witness : AllPrimary WidthP wlRoot0 :=
  layout_subtree_widths [] wlPersons none false 3 wLayout.1 wLayout.2 rfl wlRoot0
    (by rw [show wLayout.1 = [wlRoot0, wlRoot1] from rfl]
        exact List.mem_cons_self _ _)

/-- C6 witness: root level 0 and the level/y invariants on the concrete
layout's first root tree. -/
theorem layout_generation_levels_witness :
    wlRoot0.level = 0 ∧ AllNodes LevelP wlRoot0 :=
  layout_generation_levels [] wlPersons none false 3 wLayout.1 wLayout.2 rfl wlRoot0
    (by rw [show wLayout.1 = [wlRoot0, wlRoot1] from rfl]
        exact List.mem_cons_self _ _)

/-- C7 witness: the child-anchor invariant on the concrete layout's
first root tree. -/
theorem layout_child_anchors_witness : AllNodes ChildXP wlRoot0 :=
  layout_child_anchors [] wlPersons none false 3 wLayout.1 wLayout.2 rfl wlRoot0
    (by rw [show wLayout.1 = [wlRoot0, wlRoot1] from rfl]
        exact List.mem_cons_self _ _)

/-- C10 witness: spouse-leaf invariant on the concrete layout's first
root tree, and the primary-node count of this layout. -/
theorem layout_spouse_leaves_witness :
    AllNodes SpouseLeafP wlRoot0 ∧
    wLayout.2.totalNodes = primaryCountList wLayout.1 :=
  ⟨(layout_spouse_leaves [] wlPersons none false 3 wLayout.1 wLayout.2 rfl).1 wlRoot0
     (by rw [show wLayout.1 = [wlRoot0, wlRoot1] from rfl]
         exact List.mem_cons_self _ _),
   (layout_spouse_leaves [] wlPersons none false 3 wLayout.1 wLayout.2 rfl).2⟩

/-! ## Claim C8: the ALL_FAMILIES root set and its fallback -/

/-- The fallback root as the claim words it: the person with the
earliest known `birthYear` (ties broken by encounter order — the first
such person), or the first person when no one has a birth year. -/
def specFallbackRoot (d : List Person) : Option Person :=
  match (d.filterMap Person.birthYear).min? with
  | none => d.head?
  | some m => d.find? (fun p => p.birthYear == some m)

theorem min?_cons_eq (x : Int) (l : List Int) :
    (x :: l).min? = some (l.foldl min x) := rfl

theorem foldl_min_le (l : List Int) (x : Int) : l.foldl min x ≤ x := by
  induction l generalizing x with
  | nil => simp
  | cons y t ih => exact le_trans (ih (min x y)) (min_le_left x y)

theorem oldestStep_self (a : Person) : oldestStep a a = a := by
  unfold oldestStep
  cases yearVal a.birthYear <;> simp

theorem oldestStep_choice (a c : Person) :
    oldestStep a c = a ∨ oldestStep a c = c := by
  unfold oldestStep
  cases yearVal a.birthYear with
  | none =>
    cases yearVal c.birthYear with
    | none => exact Or.inl rfl
    | some cb => exact Or.inr rfl
  | some ab =>
    cases yearVal c.birthYear with
    | none => exact Or.inl rfl
    | some cb =>
      by_cases h : cb < ab
      · refine Or.inr ?_
        show (if cb < ab then c else a) = c
        rw [if_pos h]
      · refine Or.inl ?_
        show (if cb < ab then c else a) = a
        rw [if_neg h]

/-- One step of the fallback `reduce` preserves the spec value: the
first-earliest person of `a :: c :: t` is the first-earliest person of
`oldestStep a c :: t`.  The hypotheses are the API invariant that a
stored `birthYear` is never 0 (so JS truthiness never drops a known
year). -/
theorem specFallbackRoot_step (a c : Person) (t : List Person)
    (ha : a.birthYear ≠ some 0) (hc : c.birthYear ≠ some 0) :
    specFallbackRoot (a :: c :: t) = specFallbackRoot (oldestStep a c :: t) := by
  cases hab : a.birthYear with
  | none =>
    cases hcb : c.birthYear with
    | none =>
      have hstep : oldestStep a c = a := by simp [oldestStep, yearVal, hab, hcb]
      rw [hstep]
      simp only [specFallbackRoot]
      rw [List.filterMap_cons_none hab, List.filterMap_cons_none hcb,
        List.filterMap_cons_none hab]
      cases hM : (t.filterMap Person.birthYear).min? with
      | none => rfl
      | some m =>
        show (a :: c :: t).find? (fun p => p.birthYear == some m) =
          (a :: t).find? (fun p => p.birthYear == some m)
        rw [List.find?_cons_of_neg (c :: t)
              (by simp only [hab]; exact fun h2 => nomatch h2),
            List.find?_cons_of_neg t
              (by simp only [hcb]; exact fun h2 => nomatch h2),
            List.find?_cons_of_neg t
              (by simp only [hab]; exact fun h2 => nomatch h2)]
    | some cv =>
      have hcv0 : ¬ cv = 0 := fun h2 => hc (by rw [hcb, h2])
      have hstep : oldestStep a c = c := by
        simp [oldestStep, yearVal, hab, hcb, hcv0]
      rw [hstep]
      simp only [specFallbackRoot]
      rw [List.filterMap_cons_none hab, List.filterMap_cons_some hcb,
        min?_cons_eq]
      show (a :: c :: t).find? (fun p => p.birthYear ==
          some ((t.filterMap Person.birthYear).foldl min cv)) =
        (c :: t).find? (fun p => p.birthYear ==
          some ((t.filterMap Person.birthYear).foldl min cv))
      rw [List.find?_cons_of_neg (c :: t)
            (by simp only [hab]; exact fun h2 => nomatch h2)]
  | some av =>
    have hav0 : ¬ av = 0 := fun h2 => ha (by rw [hab, h2])
    cases hcb : c.birthYear with
    | none =>
      have hstep : oldestStep a c = a := by
        simp [oldestStep, yearVal, hab, hcb, hav0]
      rw [hstep]
      simp only [specFallbackRoot]
      rw [List.filterMap_cons_some hab, List.filterMap_cons_none hcb,
        List.filterMap_cons_some hab, min?_cons_eq]
      show (a :: c :: t).find? (fun p => p.birthYear ==
          some ((t.filterMap Person.birthYear).foldl min av)) =
        (a :: t).find? (fun p => p.birthYear ==
          some ((t.filterMap Person.birthYear).foldl min av))
      by_cases hpa : (a.birthYear ==
          some ((t.filterMap Person.birthYear).foldl min av)) = true
      · rw [List.find?_cons_of_pos (c :: t) hpa, List.find?_cons_of_pos t hpa]
      · rw [List.find?_cons_of_neg (c :: t) hpa,
            List.find?_cons_of_neg t
              (by simp only [hcb]; exact fun h2 => nomatch h2),
            List.find?_cons_of_neg t hpa]
    | some cv =>
      have hcv0 : ¬ cv = 0 := fun h2 => hc (by rw [hcb, h2])
      have hstep : oldestStep a c = if cv < av then c else a := by
        simp [oldestStep, yearVal, hab, hcb, hav0, hcv0]
      rw [hstep]
      by_cases hlt : cv < av
      · rw [if_pos hlt]
        simp only [specFallbackRoot]
        rw [List.filterMap_cons_some hab, List.filterMap_cons_some hcb,
          min?_cons_eq, min?_cons_eq,
          List.foldl_cons, min_eq_right (le_of_lt hlt)]
        have hmle := foldl_min_le (t.filterMap Person.birthYear) cv
        show (a :: c :: t).find? (fun p => p.birthYear ==
            some ((t.filterMap Person.birthYear).foldl min cv)) =
          (c :: t).find? (fun p => p.birthYear ==
            some ((t.filterMap Person.birthYear).foldl min cv))
        rw [List.find?_cons_of_neg (c :: t) (by
          simp only [hab, beq_iff_eq, Option.some.injEq]
          omega)]
      · rw [if_neg hlt]
        have hle : av ≤ cv := le_of_not_lt hlt
        simp only [specFallbackRoot]
        rw [List.filterMap_cons_some hab, List.filterMap_cons_some hcb,
          List.filterMap_cons_some hab, min?_cons_eq, min?_cons_eq,
          List.foldl_cons, min_eq_left hle]
        have hmle := foldl_min_le (t.filterMap Person.birthYear) av
        show (a :: c :: t).find? (fun p => p.birthYear ==
            some ((t.filterMap Person.birthYear).foldl min av)) =
          (a :: t).find? (fun p => p.birthYear ==
            some ((t.filterMap Person.birthYear).foldl min av))
        by_cases hpa : (a.birthYear ==
            some ((t.filterMap Person.birthYear).foldl min av)) = true
        · rw [List.find?_cons_of_pos (c :: t) hpa, List.find?_cons_of_pos t hpa]
        · have hane : ¬ av = (t.filterMap Person.birthYear).foldl min av := by
            intro he
            apply hpa
            rw [hab, ← he]
            exact beq_self_eq_true _
          rw [List.find?_cons_of_neg (c :: t) hpa,
              List.find?_cons_of_neg t (by
                simp only [hcb, beq_iff_eq, Option.some.injEq]
                omega),
              List.find?_cons_of_neg t hpa]

/-- The `reduce` seeded with `a` over `l` computes the claim's fallback
root of `a :: l`. -/
theorem foldl_oldest_spec : ∀ (l : List Person) (a : Person),
    (∀ p ∈ a :: l, p.birthYear ≠ some 0) →
    specFallbackRoot (a :: l) = some (l.foldl oldestStep a) := by
  intro l
  induction l with
  | nil =>
    intro a _
    cases hab : a.birthYear with
    | none =>
      simp only [specFallbackRoot]
      rw [List.filterMap_cons_none hab]
      rfl
    | some av =>
      simp only [specFallbackRoot]
      rw [List.filterMap_cons_some hab, List.filterMap_nil, min?_cons_eq,
        List.foldl_nil]
      show (a :: ([] : List Person)).find? (fun p => p.birthYear == some av) =
        some a
      rw [List.find?_cons_of_pos ([] : List Person)
        (by simp only [hab]; exact beq_self_eq_true _)]
  | cons c t ih =>
    intro a wf
    have wfa : a.birthYear ≠ some 0 := wf a (List.mem_cons_self _ _)
    have wfc : c.birthYear ≠ some 0 :=
      wf c (List.mem_cons_of_mem _ (List.mem_cons_self _ _))
    have wf2 : ∀ p ∈ oldestStep a c :: t, p.birthYear ≠ some 0 := by
      intro p hp
      rw [List.mem_cons] at hp
      rcases hp with rfl | hp
      · rcases oldestStep_choice a c with h2 | h2 <;> rw [h2]
        exacts [wfa, wfc]
      · exact wf p (List.mem_cons_of_mem _ (List.mem_cons_of_mem _ hp))
    rw [specFallbackRoot_step a c t wfa wfc, ih (oldestStep a c) wf2]
    rfl

/-- C8: in ALL_FAMILIES mode the root set is exactly the parentless
persons of the working set; when that set is empty and the working set
is not, the single fallback root is the person with the earliest known
birthYear (first such person on ties), or the first person when nobody
has a birth year — exactly `specFallbackRoot`.  The hypothesis rules
out `birthYear = 0`, which the API schema (`min(1)`) never stores but
JS truthiness would treat as unknown. -/
theorem all_families_roots_spec (d : List Person)
    (wf : ∀ p ∈ d, p.birthYear ≠ some 0) :
    (d.filter isParentless ≠ [] → allFamiliesRoots d = d.filter isParentless) ∧
    (d ≠ [] → d.filter isParentless = [] →
      ∃ r, specFallbackRoot d = some r ∧ allFamiliesRoots d = [r]) := by
  constructor
  · intro hne
    cases hf : d.filter isParentless with
    | nil => exact absurd hf hne
    | cons x xs => simp [allFamiliesRoots, hf]
  · intro hd hf
    cases d with
    | nil => exact absurd rfl hd
    | cons a l =>
      have hfold : specFallbackRoot (a :: l) = some (l.foldl oldestStep a) :=
        foldl_oldest_spec l a wf
      refine ⟨l.foldl oldestStep a, hfold, ?_⟩
      simp only [allFamiliesRoots, hf]
      rw [List.foldl_cons, oldestStep_self]

/-- Concrete fully-cyclic input: X and Y are each other's fathers, so
the parentless root set is empty; Y has the earlier birth year. -/
def wcX : Person :=
  ⟨"X", "Xan", "Cyc", "MALE", some 1950, none, none, none, none, "#3B82F6",
   none, some "Y", none, none⟩

def wcY : Person :=
  ⟨"Y", "Yul", "Cyc", "MALE", some 1940, none, none, none, none, "#3B82F6",
   none, some "X", none, none⟩

def wcPersons : List Person := [wcX, wcY]

/-- C8 witness: on the cyclic two-person set the fallback root is Y
(earliest birth year), and on the layout witness set the roots are
exactly the parentless persons. -/
theorem all_families_roots_spec_witness :
    (∃ r, specFallbackRoot wcPersons = some r ∧ allFamiliesRoots wcPersons = [r]) ∧
    allFamiliesRoots wlPersons = wlPersons.filter isParentless :=
  ⟨(all_families_roots_spec wcPersons (by decide)).2 (by decide) (by decide),
   (all_families_roots_spec wlPersons (by decide)).1 (by decide)⟩
